import Mathlib

/-!
Verification of the `schemas` mapping engine of acorn-io/schemer.

The Go source under verification is the `schemas` package: the `Mapper`
interface, the `Mappers` chain (`FromInternal`, `ToInternal`,
`ModifySchema`) and the central `typeMapper` with its three traversal
buckets (`subSchemas`, `subArraySchemas`, `subMapSchemas`).

Shallow-embedding conventions:
- Go's in-place mutation of `data.Object` values becomes explicit state
  passing: every operation that mutates an object returns the new object.
- Go's `error` becomes `Option GoError`; `errors.Join` becomes an explicit
  aggregate constructor so that constituent errors can be counted.
- Go maps (`map[string]*Schema`, `data.Object`) become association lists
  with unique-key update semantics (`mapSet` replaces in place).
- The collaborators that the engine calls but whose code is not part of
  the verified source (`data.Object` accessors, `convert.ToMapInterface`,
  the `definition` type-string helpers, the `Schemas` registry) are
  modelled from the spec; each such definition carries a doc comment
  saying so.
-/

set_option maxRecDepth 4000

namespace Schemer

/-- Model of Go `error` values as produced by this engine: either a leaf
error (some mapper's failure) or the aggregate produced by `errors.Join`. -/
inductive GoError where
  | base : String → GoError
  | join : List GoError → GoError

/-- Model of `errors.Join(errs...)` applied to a slice that may contain
nil entries: nil errors are discarded; if all are nil the result is nil,
otherwise one aggregate wrapping the non-nil errors in order. -/
def joinOptErrors (es : List (Option GoError)) : Option GoError :=
  match es.filterMap id with
  | [] => none
  | l => some (.join l)

/-- Model of `errors.Join(errs...)` applied to an already-filtered slice
of non-nil errors (as built by the source's `addError`). -/
def joinErrorList (es : List GoError) : Option GoError :=
  match es with
  | [] => none
  | l => some (.join l)

/-- The source's `addError`: append `err` to the slice only if non-nil. -/
def addError (errs : List GoError) (e : Option GoError) : List GoError :=
  match e with
  | none => errs
  | some e => errs ++ [e]

/-- Number of constituent errors of an aggregate: nil has zero, a joined
aggregate has one per joined error, a bare error counts as one. -/
def countConstituents : Option GoError → Nat
  | none => 0
  | some (.join l) => l.length
  | some _ => 1

/-- Modelled from the spec: a structured data view is an untyped nested
structure, a mapping from string key to arbitrary value, where values may
be nested objects, sequences, or scalars (Go `data.Object` /
`map[string]interface{}`). -/
inductive Value where
  | str : String → Value
  | obj : List (String × Value) → Value
  | arr : List Value → Value

/-- A data view: the top-level object (Go `data.Object`). -/
abbrev Object := List (String × Value)

/-- Lookup in a string-keyed association map (models Go map read). -/
def mapGet {α : Type} : List (String × α) → String → Option α
  | [], _ => none
  | p :: ps, k => if p.1 = k then some p.2 else mapGet ps k

/-- Update in a string-keyed association map (models Go map assignment:
replace the value in place if the key exists, otherwise add the entry). -/
def mapSet {α : Type} : List (String × α) → String → α → List (String × α)
  | [], k, v => [(k, v)]
  | p :: ps, k, v => if p.1 = k then (k, v) :: ps else p :: mapSet ps k v

/-- The data-conversion half of the Go `Mapper` interface, as used for the
`Mapper` stored on a sub-`Schema`: the `typeMapper` only ever calls
`FromInternal` and `ToInternal` on a sub-schema's mapper, so the schema
node stores exactly these two operations.  `toInternal` returns the
mutated object together with the Go error. -/
structure DataMapper where
  fromInternal : Object → Object
  toInternal : Object → Object × Option GoError

/-- One field of a schema; the engine reads only its declared type string
(Go `field.Type`). -/
structure Field where
  fieldType : String

/-- A schema node: identifier, resource fields, optional internal schema
and optional mapper (Go `Schema`). -/
inductive Schema where
  | mk : String → List (String × Field) → Option Schema → Option DataMapper → Schema

/-- The schema's identifier (Go `schema.ID`). -/
def Schema.ID : Schema → String
  | .mk i _ _ _ => i

/-- The schema's field map (Go `schema.ResourceFields`). -/
def Schema.ResourceFields : Schema → List (String × Field)
  | .mk _ f _ _ => f

/-- The schema's optional internal schema (Go `schema.InternalSchema`). -/
def Schema.InternalSchema : Schema → Option Schema
  | .mk _ _ i _ => i

/-- The schema's optional mapper (Go `schema.Mapper`). -/
def Schema.Mapper : Schema → Option DataMapper
  | .mk _ _ _ m => m

/-- Modelled from the spec: the Schema Registry (`Schemas`), an injected
lookup service with a resolve-or-build operation; `doSchema name false`
returns the resolved schema for a type name, or nothing when the name
does not resolve (the engine only observes the returned schema). -/
structure Schemas where
  doSchema : String → Bool → Option Schema

/-- A full chain member (Go `Mapper` interface): data conversion in both
directions plus schema modification.  `modifySchema` receives the schema
and registry and returns their (possibly rewritten) versions together
with the Go error; mutations made before a failure persist, as with Go
pointers. -/
structure Mapper where
  fromInternal : Object → Object
  toInternal : Object → Object × Option GoError
  modifySchema : Schema → Schemas → Schema × Schemas × Option GoError

/-- View a full chain member through the data-conversion half of the
interface. -/
def Mapper.dataView (m : Mapper) : DataMapper :=
  { fromInternal := m.fromInternal, toInternal := m.toInternal }

/-- Go `Mappers.FromInternal`: apply each mapper in declared order. -/
def Mappers.fromInternal (ms : List Mapper) (d : Object) : Object :=
  ms.foldl (fun d m => m.fromInternal d) d

/-- Helper for Go `Mappers.ToInternal`: run the mappers in reverse
declared order (`for i := len(m)-1; i >= 0; i--`), returning the mutated
object and the slice of collected errors (nil entries included, in
collection order). -/
def Mappers.toInternalAux : List Mapper → Object → Object × List (Option GoError)
  | [], d => (d, [])
  | m :: ms, d =>
    let r := Mappers.toInternalAux ms d
    let s := m.toInternal r.1
    (s.1, r.2 ++ [s.2])

/-- Go `Mappers.ToInternal`: apply each mapper in reverse declared order,
collect every error, and return `errors.Join` of the collected slice. -/
def Mappers.toInternal (ms : List Mapper) (d : Object) : Object × Option GoError :=
  let r := Mappers.toInternalAux ms d
  (r.1, joinOptErrors r.2)

/-- Go `Mappers.ModifySchema`: apply each mapper in declared order,
returning immediately on the first failure. -/
def Mappers.modifySchema : List Mapper → Schema → Schemas → Schema × Schemas × Option GoError
  | [], s, r => (s, r, none)
  | m :: ms, s, r =>
    match m.modifySchema s r with
    | (s', r', some e) => (s', r', some e)
    | (s', r', none) => Mappers.modifySchema ms s' r'

/-- Modelled from the spec: an in-place edit of the value stored at one
key of a data view, as performed through the aliasing `data.Map` /
`data.Slice` accessors.  If the key is absent the accessor returns a
detached empty view and the mutation is lost; if the transformation does
not trigger (wrong shape) the object is unchanged. -/
def fieldEditFrom (tf : Value → Option Value) (f : String) (d : Object) : Object :=
  match mapGet d f with
  | some v =>
    match tf v with
    | some w => mapSet d f w
    | none => d
  | none => d

/-- Modelled from the spec: the fallible variant of a single-field
in-place edit.  A present value is transformed (possibly to itself) and
its errors are appended; an absent key yields the accessor's detached
empty view, whose conversion contributes the default errors `dflt`. -/
def fieldEditTo (tf : Value → Value × List GoError) (dflt : List GoError) (f : String)
    (acc : Object × List GoError) : Object × List GoError :=
  match mapGet acc.1 f with
  | some v =>
    let r := tf v
    (mapSet acc.1 f r.1, acc.2 ++ r.2)
  | none => (acc.1, acc.2 ++ dflt)

/-- Object-bucket step of `typeMapper.FromInternal`:
`schema.Mapper.FromInternal(data.Map(fieldName))` — transform the nested
object at the field in place; a missing or non-object value leaves the
data unchanged (the mutation of the detached empty view is lost). -/
def objFieldFrom (m : DataMapper) (f : String) (d : Object) : Object :=
  fieldEditFrom
    (fun v => match v with
      | .obj o => some (.obj (m.fromInternal o))
      | _ => none) f d

/-- Per-entry transformation of a map-of-object field for
`typeMapper.FromInternal`: `data.Map(fieldName).Values()` yields each
value of the map coerced to an object; object values are transformed in
place through the alias, other values are untouched (the coerced empty
view is detached). -/
def mapEntriesFrom (m : DataMapper) (entries : List (String × Value)) : List (String × Value) :=
  entries.map (fun kv =>
    match kv.2 with
    | .obj s => (kv.1, .obj (m.fromInternal s))
    | _ => kv)

/-- Map-bucket step of `typeMapper.FromInternal`. -/
def mapFieldFrom (m : DataMapper) (f : String) (d : Object) : Object :=
  fieldEditFrom
    (fun v => match v with
      | .obj o => some (.obj (mapEntriesFrom m o))
      | _ => none) f d

/-- Per-element transformation of an array-of-object field for
`typeMapper.FromInternal`: `data.Slice(fieldName)` yields each element
coerced to an object; object elements are transformed in place through
the alias, other elements are untouched. -/
def arrElemsFrom (m : DataMapper) (l : List Value) : List Value :=
  l.map (fun v =>
    match v with
    | .obj s => .obj (m.fromInternal s)
    | _ => v)

/-- Array-bucket step of `typeMapper.FromInternal`. -/
def arrFieldFrom (m : DataMapper) (f : String) (d : Object) : Object :=
  fieldEditFrom
    (fun v => match v with
      | .arr l => some (.arr (arrElemsFrom m l))
      | _ => none) f d

/-- Object-bucket step of `typeMapper.ToInternal`:
`schema.Mapper.ToInternal(data.Map(fieldName))` is invoked
unconditionally; when the field is missing or not an object the call runs
on the detached empty view, so only its error is observed. -/
def objFieldTo (m : DataMapper) (f : String) (acc : Object × List GoError) :
    Object × List GoError :=
  fieldEditTo
    (fun v => match v with
      | .obj o =>
        let r := m.toInternal o
        (.obj r.1, addError [] r.2)
      | _ => (v, addError [] (m.toInternal []).2))
    (addError [] (m.toInternal []).2) f acc

/-- Per-entry conversion of a map-of-object field for
`typeMapper.ToInternal`: the loop ranges over the entries of
`data.Map(fieldName)`, coercing each value with
`convert.ToMapInterface`; object values are converted in place through
the alias, other values are converted as the detached empty view (only
the error is observed).  Errors are collected in entry order. -/
def mapEntriesTo (m : DataMapper) : List (String × Value) → List (String × Value) × List GoError
  | [] => ([], [])
  | (k, .obj s) :: rest =>
    let r := m.toInternal s
    let rr := mapEntriesTo m rest
    ((k, .obj r.1) :: rr.1, addError [] r.2 ++ rr.2)
  | kv :: rest =>
    let rr := mapEntriesTo m rest
    (kv :: rr.1, addError [] (m.toInternal []).2 ++ rr.2)

/-- Map-bucket step of `typeMapper.ToInternal`; when the field is missing
or not a map the loop over `data.Map(fieldName)` has nothing to visit. -/
def mapFieldTo (m : DataMapper) (f : String) (acc : Object × List GoError) :
    Object × List GoError :=
  fieldEditTo
    (fun v => match v with
      | .obj o =>
        let r := mapEntriesTo m o
        (.obj r.1, r.2)
      | _ => (v, [])) [] f acc

/-- Per-element conversion of an array-of-object field for
`typeMapper.ToInternal`: the loop ranges over `data.Slice(fieldName)`;
object elements are converted in place through the alias, other elements
as the detached empty view.  Errors are collected in element order. -/
def arrElemsTo (m : DataMapper) : List Value → List Value × List GoError
  | [] => ([], [])
  | .obj s :: rest =>
    let r := m.toInternal s
    let rr := arrElemsTo m rest
    (.obj r.1 :: rr.1, addError [] r.2 ++ rr.2)
  | v :: rest =>
    let rr := arrElemsTo m rest
    (v :: rr.1, addError [] (m.toInternal []).2 ++ rr.2)

/-- Array-bucket step of `typeMapper.ToInternal`; when the field is
missing or not a sequence the loop over `data.Slice(fieldName)` has
nothing to visit. -/
def arrFieldTo (m : DataMapper) (f : String) (acc : Object × List GoError) :
    Object × List GoError :=
  fieldEditTo
    (fun v => match v with
      | .arr l =>
        let r := arrElemsTo m l
        (.arr r.1, r.2)
      | _ => (v, [])) [] f acc

/-- One bucket loop of `typeMapper.FromInternal`: iterate the bucket,
skipping entries whose schema has a nil mapper. -/
def bucketPassFrom (op : DataMapper → String → Object → Object)
    (bucket : List (String × Schema)) (d : Object) : Object :=
  bucket.foldl (fun d fs =>
    match fs.2.Mapper with
    | none => d
    | some m => op m fs.1 d) d

/-- One bucket loop of `typeMapper.ToInternal`: iterate the bucket,
skipping entries whose schema has a nil mapper, threading the data and
the collected error slice. -/
def bucketPassTo (op : DataMapper → String → Object × List GoError → Object × List GoError)
    (bucket : List (String × Schema)) (acc : Object × List GoError) : Object × List GoError :=
  bucket.foldl (fun acc fs =>
    match fs.2.Mapper with
    | none => acc
    | some m => op m fs.1 acc) acc

/-- The Go `typeMapper` struct: the embedded chain, the root flag, the
recorded type name and the three traversal buckets. -/
structure TypeMapper where
  Mappers : List Mapper
  root : Bool
  typeName : String
  subSchemas : List (String × Schema)
  subArraySchemas : List (String × Schema)
  subMapSchemas : List (String × Schema)

/-- Go `typeMapper.FromInternal`: object bucket, then map bucket, then
array bucket, then the node's own chain in declared order. -/
def TypeMapper.FromInternal (t : TypeMapper) (d : Object) : Object :=
  Mappers.fromInternal t.Mappers
    (bucketPassFrom arrFieldFrom t.subArraySchemas
      (bucketPassFrom mapFieldFrom t.subMapSchemas
        (bucketPassFrom objFieldFrom t.subSchemas d)))

/-- Go `typeMapper.ToInternal`: the node's own chain first, then the
array bucket, then the map bucket, then the object bucket, every error
collected with `addError` and the result joined with `errors.Join`. -/
def TypeMapper.ToInternal (t : TypeMapper) (d : Object) : Object × Option GoError :=
  let c := Mappers.toInternal t.Mappers d
  let r := bucketPassTo objFieldTo t.subSchemas
            (bucketPassTo mapFieldTo t.subMapSchemas
              (bucketPassTo arrFieldTo t.subArraySchemas (c.1, addError [] c.2)))
  (r.1, joinErrorList r.2)

/-- Modelled from the spec: `definition.IsArrayType` — a field-type
string denoting array-of-T, written `array[T]`. -/
def IsArrayType (t : String) : Bool :=
  t.data.take 6 == "array[".data && t.data.getLast? == some ']'

/-- Modelled from the spec: `definition.IsMapType` — a field-type string
denoting map-of-T, written `map[T]`. -/
def IsMapType (t : String) : Bool :=
  t.data.take 4 == "map[".data && t.data.getLast? == some ']'

/-- Modelled from the spec: `definition.SubType` — strip the array or map
wrapper to obtain the element type T. -/
def SubType (t : String) : String :=
  if IsArrayType t then ⟨(t.data.drop 6).dropLast⟩
  else if IsMapType t then ⟨(t.data.drop 4).dropLast⟩
  else t

/-- One iteration of the field-classification loop of
`typeMapper.ModifySchema`: inspect the declared type string, choose the
target bucket (array first, then map, otherwise object), resolve the
(sub)type through the registry, and record the entry only when a schema
is found. -/
def classifyStep (schemas : Schemas) (acc : TypeMapper) (nf : String × Field) : TypeMapper :=
  let fieldType := nf.2.fieldType
  if IsArrayType fieldType then
    match schemas.doSchema (SubType fieldType) false with
    | some s => { acc with subArraySchemas := mapSet acc.subArraySchemas nf.1 s }
    | none => acc
  else if IsMapType fieldType then
    match schemas.doSchema (SubType fieldType) false with
    | some s => { acc with subMapSchemas := mapSet acc.subMapSchemas nf.1 s }
    | none => acc
  else
    match schemas.doSchema fieldType false with
    | some s => { acc with subSchemas := mapSet acc.subSchemas nf.1 s }
    | none => acc

/-- Go `typeMapper.ModifySchema`: reset the three buckets, record the
type name, classify the fields of the internal schema when present (the
schema's own fields otherwise), then run the embedded chain's
modify-schema against the original schema and registry.  The rebuilt
mapper state is returned together with the chain's result. -/
def TypeMapper.ModifySchema (t : TypeMapper) (schema : Schema) (schemas : Schemas) :
    TypeMapper × Schema × Schemas × Option GoError :=
  let t0 : TypeMapper :=
    { t with subSchemas := [], subArraySchemas := [], subMapSchemas := [],
             typeName := schema.ID }
  let mapperSchema := (schema.InternalSchema).getD schema
  let t1 := mapperSchema.ResourceFields.foldl (classifyStep schemas) t0
  (t1, Mappers.modifySchema t.Mappers schema schemas)

/-- View a type mapper through the data-conversion half of the `Mapper`
interface, for use as a sub-schema's mapper. -/
def TypeMapper.dataView (t : TypeMapper) : DataMapper :=
  { fromInternal := t.FromInternal, toInternal := t.ToInternal }

/-- A data mapper whose two directions are mutual inverses: to-internal
exactly undoes from-internal with no error, and to-internal never fails
(its error channel is unused, as for a pure renaming mapper). -/
def DataMapper.IsInverse (m : DataMapper) : Prop :=
  (∀ o, m.toInternal (m.fromInternal o) = (o, none)) ∧
  (∀ o, (m.toInternal o).2 = none)

/-! Concrete mappers, schemas and registries used to instantiate the
claims on explicit inputs. -/

/-- A conversion mapper that fails on every input. -/
def alwaysFailM : DataMapper := ⟨fun o => o, fun o => (o, some (.base "conversion failed"))⟩

/-- A schema for type `X` with no mapper installed. -/
def xSchema : Schema := .mk "X" [] none none

/-- The identity data mapper: both directions leave the data unchanged
and to-internal never fails. -/
def idM : DataMapper := ⟨fun o => o, fun o => (o, none)⟩

/-- A schema for type `X` carrying the identity mapper. -/
def idSchema : Schema := .mk "X" [] none (some idM)

/-- A schema for type `X` carrying the always-failing mapper. -/
def failSchemaX : Schema := .mk "X" [] none (some alwaysFailM)

/-- A registry that resolves only the type name `X`. -/
def regXOnly : Schemas := ⟨fun n _ => if n = "X" then some xSchema else none⟩

/-- A schema with three plain-object fields, the middle one of a type the
registry cannot resolve. -/
def schemaABC : Schema :=
  .mk "P" [("a", Field.mk "X"), ("b", Field.mk "B"), ("c", Field.mk "X")] none none

/-- A schema with a single plain-object field of type `X`. -/
def schemaA : Schema := .mk "P" [("a", Field.mk "X")] none none

/-- An internal schema with one field per traversal bucket. -/
def internalSchemaP : Schema :=
  .mk "PInt" [("xs", Field.mk "array[X]"), ("mp", Field.mk "map[X]"), ("ob", Field.mk "X")]
    none none

/-- An external schema whose internal schema is `internalSchemaP`; its
own field `z` must be ignored by classification. -/
def schemaWithInternal : Schema :=
  .mk "P" [("z", Field.mk "X")] (some internalSchemaP) none

/-- A type mapper with empty chain and empty buckets. -/
def emptyTM : TypeMapper := ⟨[], false, "", [], [], []⟩

/-- A chain mapper whose to-internal rewrites the array at `items` to a
single recognisable element, so that a later traversal of `items` can
witness that the chain already ran. -/
def chainRw : Mapper :=
  ⟨fun d => d,
    fun d => (mapSet d "items" (.arr [.obj [("k", .str "chained")]]), none),
    fun s r => (s, r, none)⟩

/-- An element mapper whose error reports the value it saw at key `k`. -/
def elemReport : DataMapper :=
  ⟨fun o => o,
    fun o => (o, some (.base (match mapGet o "k" with | some (.str s) => s | _ => "missing")))⟩

/-- A schema for type `X` carrying `elemReport`. -/
def elemReportSchema : Schema := .mk "X" [] none (some elemReport)

/-- A type mapper with chain `chainRw` and `items` in the array bucket
mapped by `elemReport`. -/
def tChainFirst : TypeMapper := ⟨[chainRw], false, "", [], [("items", elemReportSchema)], []⟩

/-- Data with one original element under `items`. -/
def dChainFirst : Object := [("items", .arr [.obj [("k", .str "orig")]])]

/-- A sub-object mapper that marks the sub-object it is given. -/
def childMark : DataMapper := ⟨fun o => mapSet o "done" (.str "1"), fun o => (o, none)⟩

/-- A schema for type `X` carrying `childMark`. -/
def childSchema : Schema := .mk "X" [] none (some childMark)

/-- A parent chain mapper whose from-internal copies the child's mark
from the sub-object at `a` to the top-level key `seen`, witnessing
whether the child had already run when the chain executed. -/
def parentRead : Mapper :=
  ⟨fun d =>
      mapSet d "seen"
        (match mapGet d "a" with
          | some (.obj o) => (match mapGet o "done" with | some v => v | none => .str "missing")
          | _ => .str "missing"),
    fun d => (d, none),
    fun s r => (s, r, none)⟩

/-- A type mapper with chain `parentRead` and object-bucket field `a`
mapped by `childMark`. -/
def tParentChild : TypeMapper := ⟨[parentRead], false, "", [("a", childSchema)], [], []⟩

/-- A chain mapper whose to-internal appends `tag` to the string at
`log`, making execution order observable. -/
def logAppend (tag : String) : Mapper :=
  ⟨fun d => d,
    fun d =>
      (mapSet d "log"
        (.str ((match mapGet d "log" with | some (.str s) => s | _ => "") ++ tag)), none),
    fun s r => (s, r, none)⟩

/-- A chain mapper whose to-internal always fails. -/
def failChainM : Mapper := ⟨fun d => d, fun d => (d, some (.base "chain fail")), fun s r => (s, r, none)⟩

/-- A chain mapper for which every operation succeeds without change. -/
def okChainM : Mapper := ⟨fun d => d, fun d => (d, none), fun s r => (s, r, none)⟩

/-- A chain mapper whose modify-schema always fails. -/
def failModM : Mapper := ⟨fun d => d, fun d => (d, none), fun s r => (s, r, some (.base "modify failed"))⟩

/-- A type mapper whose chain fails on to-internal and whose buckets are
all empty. -/
def tChainOnly : TypeMapper := ⟨[failChainM], false, "", [], [], []⟩

/-- A type mapper holding stale bucket state and a failing chain. -/
def staleTM : TypeMapper := ⟨[failModM], false, "old", [("old", xSchema)], [], []⟩

/-- A type mapper with one identity-mapped field in each bucket and an
identity chain. -/
def tRound : TypeMapper :=
  ⟨[okChainM], false, "", [("a", idSchema)], [("mp", idSchema)], [("xs", idSchema)]⟩

/-- Data populating all three buckets of `tRound`. -/
def dRound : Object :=
  [("a", .obj [("k", .str "v")]), ("xs", .arr [.obj []]), ("mp", .obj [("e", .obj [])])]

/-- Reading the key just written yields the written value. -/
theorem mapGet_mapSet_self {α : Type} (l : List (String × α)) (k : String) (v : α) :
    mapGet (mapSet l k v) k = some v := by
  induction l with
  | nil => simp [mapSet, mapGet]
  | cons p ps ih =>
    by_cases h : p.1 = k
    · simp [mapSet, mapGet, h]
    · simp [mapSet, mapGet, h, ih]

/-- Writing one key does not change the value read at another key. -/
theorem mapGet_mapSet_ne {α : Type} (l : List (String × α)) {k k' : String} (h : k ≠ k')
    (v : α) : mapGet (mapSet l k v) k' = mapGet l k' := by
  induction l with
  | nil => simp [mapSet, mapGet, h]
  | cons p ps ih =>
    by_cases hp : p.1 = k
    · subst hp
      simp [mapSet, mapGet, h]
    · simp only [mapSet, if_neg hp]
      by_cases hp' : p.1 = k'
      · simp [mapGet, hp']
      · simp [mapGet, hp', ih]

/-- Writing a key twice keeps only the second write. -/
theorem mapSet_mapSet_same {α : Type} (l : List (String × α)) (k : String) (v w : α) :
    mapSet (mapSet l k v) k w = mapSet l k w := by
  induction l with
  | nil => simp [mapSet]
  | cons p ps ih =>
    by_cases h : p.1 = k
    · simp [mapSet, h]
    · simp [mapSet, h, ih]

/-- Writing back the value already stored at a key is a no-op. -/
theorem mapSet_of_get {α : Type} {l : List (String × α)} {k : String} {v : α}
    (h : mapGet l k = some v) : mapSet l k v = l := by
  induction l with
  | nil => simp [mapGet] at h
  | cons p ps ih =>
    by_cases hp : p.1 = k
    · simp [mapGet, hp] at h
      obtain ⟨k', v'⟩ := p
      simp only at hp
      subst hp
      subst h
      simp [mapSet]
    · simp [mapGet, hp] at h
      simp [mapSet, hp, ih h]

/-- Writes at two distinct keys that are both present commute. -/
theorem mapSet_comm {α : Type} {l : List (String × α)} {f g : String} {a b : α}
    (hf : mapGet l f = some a) (hg : mapGet l g = some b) (hne : f ≠ g) (u w : α) :
    mapSet (mapSet l g u) f w = mapSet (mapSet l f w) g u := by
  induction l with
  | nil => simp [mapGet] at hf
  | cons p ps ih =>
    by_cases hpf : p.1 = f
    · have hpg : ¬p.1 = g := by rw [hpf]; exact hne
      simp [mapSet, hpf, hpg, hne, Ne.symm hne]
    · by_cases hpg : p.1 = g
      · have : ¬(g = f) := Ne.symm hne
        simp [mapSet, hpf, hpg, this, hne]
      · simp only [mapGet, if_neg hpf] at hf
        simp only [mapGet, if_neg hpg] at hg
        simp [mapSet, hpf, hpg, ih hf hg]

/-- Shape of an infallible field edit when the key is absent. -/
theorem fieldEditFrom_of_none {tf : Value → Option Value} {f : String} {d : Object}
    (h : mapGet d f = none) : fieldEditFrom tf f d = d := by
  simp only [fieldEditFrom, h]

/-- Shape of an infallible field edit when the transformation declines. -/
theorem fieldEditFrom_of_stuck {tf : Value → Option Value} {f : String} {d : Object}
    {v : Value} (h : mapGet d f = some v) (h2 : tf v = none) : fieldEditFrom tf f d = d := by
  simp only [fieldEditFrom, h, h2]

/-- Shape of an infallible field edit when the transformation applies. -/
theorem fieldEditFrom_of_some {tf : Value → Option Value} {f : String} {d : Object}
    {v w : Value} (h : mapGet d f = some v) (h2 : tf v = some w) :
    fieldEditFrom tf f d = mapSet d f w := by
  simp only [fieldEditFrom, h, h2]

/-- Shape of a fallible field edit when the key is absent. -/
theorem fieldEditTo_of_none {tf : Value → Value × List GoError} {dflt : List GoError}
    {f : String} {d : Object} (errs : List GoError) (h : mapGet d f = none) :
    fieldEditTo tf dflt f (d, errs) = (d, errs ++ dflt) := by
  simp only [fieldEditTo, h]

/-- Shape of a fallible field edit when the key is present. -/
theorem fieldEditTo_of_some {tf : Value → Value × List GoError} {dflt : List GoError}
    {f : String} {d : Object} {v : Value} (errs : List GoError) (h : mapGet d f = some v) :
    fieldEditTo tf dflt f (d, errs) = (mapSet d f (tf v).1, errs ++ (tf v).2) := by
  simp only [fieldEditTo, h]

/-- A single-field edit does not change the value read at another key. -/
theorem mapGet_fieldEditFrom_ne (tf : Value → Option Value) {f g : String} (h : g ≠ f)
    (d : Object) : mapGet (fieldEditFrom tf f d) g = mapGet d g := by
  cases hf : mapGet d f with
  | none => rw [fieldEditFrom_of_none hf]
  | some v =>
    cases htf : tf v with
    | none => rw [fieldEditFrom_of_stuck hf htf]
    | some w => rw [fieldEditFrom_of_some hf htf, mapGet_mapSet_ne d (Ne.symm h) w]

/-- A fallible edit of one field commutes with an infallible edit of a
different field: the edited fields are distinct, so the data updates are
independent and the error produced is unchanged. -/
theorem fieldEditTo_fieldEditFrom_comm (tf1 : Value → Option Value)
    (tf2 : Value → Value × List GoError) (dflt : List GoError) {f g : String}
    (hne : f ≠ g) (d : Object) (errs : List GoError) :
    fieldEditTo tf2 dflt f (fieldEditFrom tf1 g d, errs) =
      (fieldEditFrom tf1 g (fieldEditTo tf2 dflt f (d, errs)).1,
        (fieldEditTo tf2 dflt f (d, errs)).2) := by
  cases hg : mapGet d g with
  | none =>
    rw [fieldEditFrom_of_none hg]
    cases hf : mapGet d f with
    | none =>
      rw [fieldEditTo_of_none errs hf]
      dsimp only
      rw [fieldEditFrom_of_none hg]
    | some v =>
      rw [fieldEditTo_of_some errs hf]
      dsimp only
      have hg2 : mapGet (mapSet d f (tf2 v).1) g = none := by
        rw [mapGet_mapSet_ne d hne _, hg]
      rw [fieldEditFrom_of_none hg2]
  | some u =>
    cases hu : tf1 u with
    | none =>
      rw [fieldEditFrom_of_stuck hg hu]
      cases hf : mapGet d f with
      | none =>
        rw [fieldEditTo_of_none errs hf]
        dsimp only
        rw [fieldEditFrom_of_stuck hg hu]
      | some v =>
        rw [fieldEditTo_of_some errs hf]
        dsimp only
        have hg2 : mapGet (mapSet d f (tf2 v).1) g = some u := by
          rw [mapGet_mapSet_ne d hne _, hg]
        rw [fieldEditFrom_of_stuck hg2 hu]
    | some u' =>
      rw [fieldEditFrom_of_some hg hu]
      cases hf : mapGet d f with
      | none =>
        have hf2 : mapGet (mapSet d g u') f = none := by
          rw [mapGet_mapSet_ne d (Ne.symm hne) u', hf]
        rw [fieldEditTo_of_none errs hf2, fieldEditTo_of_none errs hf]
        dsimp only
        rw [fieldEditFrom_of_some hg hu]
      | some v =>
        have hf2 : mapGet (mapSet d g u') f = some v := by
          rw [mapGet_mapSet_ne d (Ne.symm hne) u', hf]
        rw [fieldEditTo_of_some errs hf2, fieldEditTo_of_some errs hf]
        dsimp only
        have hg2 : mapGet (mapSet d f (tf2 v).1) g = some u := by
          rw [mapGet_mapSet_ne d hne _, hg]
        rw [fieldEditFrom_of_some hg2 hu]
        exact Prod.ext (mapSet_comm hf hg hne _ _) rfl

theorem bucketPassFrom_nil (op : DataMapper → String → Object → Object) (d : Object) :
    bucketPassFrom op [] d = d := rfl

theorem bucketPassFrom_cons (op : DataMapper → String → Object → Object)
    (e : String × Schema) (rest : List (String × Schema)) (d : Object) :
    bucketPassFrom op (e :: rest) d =
      bucketPassFrom op rest
        (match e.2.Mapper with | none => d | some m => op m e.1 d) := rfl

theorem bucketPassTo_nil
    (op : DataMapper → String → Object × List GoError → Object × List GoError)
    (acc : Object × List GoError) : bucketPassTo op [] acc = acc := rfl

theorem bucketPassTo_cons
    (op : DataMapper → String → Object × List GoError → Object × List GoError)
    (e : String × Schema) (rest : List (String × Schema)) (acc : Object × List GoError) :
    bucketPassTo op (e :: rest) acc =
      bucketPassTo op rest
        (match e.2.Mapper with | none => acc | some m => op m e.1 acc) := rfl

/-- A fallible edit of one field commutes past a whole infallible bucket
pass over other fields. -/
theorem bucketPassFrom_editTo_comm
    (opF : DataMapper → String → Object → Object)
    (opT : DataMapper → String → Object × List GoError → Object × List GoError)
    (hcm : ∀ m m' f g d errs, f ≠ g →
      opT m f (opF m' g d, errs) = (opF m' g (opT m f (d, errs)).1, (opT m f (d, errs)).2))
    (m : DataMapper) (f : String) :
    ∀ (bucket : List (String × Schema)), f ∉ bucket.map Prod.fst →
      ∀ (X : Object) (errs : List GoError),
        opT m f (bucketPassFrom opF bucket X, errs) =
          (bucketPassFrom opF bucket (opT m f (X, errs)).1, (opT m f (X, errs)).2) := by
  intro bucket
  induction bucket with
  | nil =>
    intro _ X errs
    simp [bucketPassFrom_nil]
  | cons e rest ih =>
    intro hf X errs
    simp only [List.map_cons, List.mem_cons, not_or] at hf
    rw [bucketPassFrom_cons, bucketPassFrom_cons]
    cases hm : e.2.Mapper with
    | none => exact ih hf.2 X errs
    | some m' =>
      rw [ih hf.2 (opF m' e.1 X) errs, hcm m m' f e.1 X errs hf.1]

/-- A fallible bucket pass exactly undoes the matching infallible bucket
pass when every involved mapper satisfies `P`, the per-field operations
cancel under `P`, and the bucket's field names are distinct (as Go map
keys are). -/
theorem bucketPass_cancel
    (opF : DataMapper → String → Object → Object)
    (opT : DataMapper → String → Object × List GoError → Object × List GoError)
    (P : DataMapper → Prop)
    (hc : ∀ m f d errs, P m → opT m f (opF m f d, errs) = (d, errs))
    (hcm : ∀ m m' f g d errs, f ≠ g →
      opT m f (opF m' g d, errs) = (opF m' g (opT m f (d, errs)).1, (opT m f (d, errs)).2)) :
    ∀ (bucket : List (String × Schema)), (bucket.map Prod.fst).Nodup →
      (∀ f s m, (f, s) ∈ bucket → s.Mapper = some m → P m) →
      ∀ (d : Object) (errs : List GoError),
        bucketPassTo opT bucket (bucketPassFrom opF bucket d, errs) = (d, errs) := by
  intro bucket
  induction bucket with
  | nil =>
    intro _ _ d errs
    rw [bucketPassFrom_nil, bucketPassTo_nil]
  | cons e rest ih =>
    obtain ⟨f0, s0⟩ := e
    intro hnd hP d errs
    simp only [List.map_cons, List.nodup_cons] at hnd
    have hP' : ∀ f s m, (f, s) ∈ rest → s.Mapper = some m → P m :=
      fun f s m hm hsm => hP f s m (List.mem_cons_of_mem _ hm) hsm
    rw [bucketPassFrom_cons, bucketPassTo_cons]
    cases hm : s0.Mapper with
    | none => exact ih hnd.2 hP' d errs
    | some m =>
      have hPm : P m := hP f0 s0 m (List.mem_cons_self _ _) hm
      dsimp only
      rw [bucketPassFrom_editTo_comm opF opT hcm m f0 rest hnd.1 (opF m f0 d) errs,
        hc m f0 d errs hPm]
      exact ih hnd.2 hP' d errs

theorem Mappers.fromInternal_nil (d : Object) : Mappers.fromInternal [] d = d := rfl

theorem Mappers.fromInternal_cons (m : Mapper) (ms : List Mapper) (d : Object) :
    Mappers.fromInternal (m :: ms) d = Mappers.fromInternal ms (m.fromInternal d) := rfl

theorem Mappers.toInternalAux_nil (d : Object) : Mappers.toInternalAux [] d = (d, []) := rfl

theorem Mappers.toInternalAux_cons (m : Mapper) (ms : List Mapper) (d : Object) :
    Mappers.toInternalAux (m :: ms) d =
      ((m.toInternal (Mappers.toInternalAux ms d).1).1,
        (Mappers.toInternalAux ms d).2 ++ [(m.toInternal (Mappers.toInternalAux ms d).1).2]) :=
  rfl

/-- An `errors.Join` of a slice of nil errors is nil. -/
theorem joinOptErrors_all_none {es : List (Option GoError)} (h : ∀ e ∈ es, e = none) :
    joinOptErrors es = none := by
  have hfe : es.filterMap id = [] := by
    rw [List.filterMap_eq_nil_iff]
    intro a ha
    exact h a ha
  simp only [joinOptErrors, hfe]

theorem countConstituents_joinOptErrors (es : List (Option GoError)) :
    countConstituents (joinOptErrors es) = (es.filterMap id).length := by
  unfold joinOptErrors
  cases hfe : es.filterMap id with
  | nil => simp [countConstituents]
  | cons a l => simp [countConstituents]

theorem countConstituents_joinErrorList (es : List GoError) :
    countConstituents (joinErrorList es) = es.length := by
  cases es <;> simp [joinErrorList, countConstituents]

/-- Undoing a chain: to-internal run on the output of from-internal
recovers the input, with every collected error nil, as soon as each
member mapper's to-internal undoes its from-internal. -/
theorem toInternalAux_roundtrip :
    ∀ (ms : List Mapper),
      (∀ m ∈ ms, ∀ o, m.toInternal (m.fromInternal o) = (o, none)) →
      ∀ d, (Mappers.toInternalAux ms (Mappers.fromInternal ms d)).1 = d ∧
        ∀ e ∈ (Mappers.toInternalAux ms (Mappers.fromInternal ms d)).2, e = none := by
  intro ms
  induction ms with
  | nil =>
    intro _ d
    exact ⟨rfl, by simp [Mappers.toInternalAux_nil]⟩
  | cons m ms ih =>
    intro h d
    have hm : ∀ o, m.toInternal (m.fromInternal o) = (o, none) :=
      h m (List.mem_cons_self _ _)
    have h' : ∀ m' ∈ ms, ∀ o, m'.toInternal (m'.fromInternal o) = (o, none) :=
      fun m' hm' => h m' (List.mem_cons_of_mem _ hm')
    obtain ⟨h1, h2⟩ := ih h' (m.fromInternal d)
    rw [Mappers.fromInternal_cons, Mappers.toInternalAux_cons]
    constructor
    · dsimp only
      rw [h1, hm d]
    · intro e he
      dsimp only at he
      rw [h1, hm d] at he
      rcases List.mem_append.mp he with h3 | h3
      · exact h2 e h3
      · simpa using h3

/-- Chain round trip: to-internal undoes from-internal with a nil
aggregate. -/
theorem chain_roundtrip (ms : List Mapper)
    (h : ∀ m ∈ ms, ∀ o, m.toInternal (m.fromInternal o) = (o, none)) (d : Object) :
    Mappers.toInternal ms (Mappers.fromInternal ms d) = (d, none) := by
  obtain ⟨h1, h2⟩ := toInternalAux_roundtrip ms h d
  unfold Mappers.toInternal
  exact Prod.ext h1 (joinOptErrors_all_none h2)

/-- When every chain member fails on every input, the reverse-order run
collects exactly one error per member: nothing short-circuits. -/
theorem toInternalAux_fail_count :
    ∀ (ms : List Mapper), (∀ m ∈ ms, ∀ o, ((m.toInternal o).2).isSome) →
      ∀ d, ((Mappers.toInternalAux ms d).2.filterMap id).length = ms.length := by
  intro ms
  induction ms with
  | nil => intro _ d; simp [Mappers.toInternalAux_nil]
  | cons m ms ih =>
    intro h d
    have hm : ((m.toInternal (Mappers.toInternalAux ms d).1).2).isSome :=
      h m (List.mem_cons_self _ _) _
    have h' : ∀ m' ∈ ms, ∀ o, ((m'.toInternal o).2).isSome :=
      fun m' hm' => h m' (List.mem_cons_of_mem _ hm')
    rw [Mappers.toInternalAux_cons]
    dsimp only
    rw [List.filterMap_append, List.length_append, ih h' d]
    obtain ⟨e, he⟩ := Option.isSome_iff_exists.mp hm
    simp [he, List.length_cons]

/-- When every chain member succeeds on every input, every collected
error is nil. -/
theorem toInternalAux_success :
    ∀ (ms : List Mapper), (∀ m ∈ ms, ∀ o, (m.toInternal o).2 = none) →
      ∀ d, ∀ e ∈ (Mappers.toInternalAux ms d).2, e = none := by
  intro ms
  induction ms with
  | nil => intro _ d; simp [Mappers.toInternalAux_nil]
  | cons m ms ih =>
    intro h d e he
    rw [Mappers.toInternalAux_cons] at he
    dsimp only at he
    rcases List.mem_append.mp he with h3 | h3
    · exact ih (fun m' hm' => h m' (List.mem_cons_of_mem _ hm')) d e h3
    · have := h m (List.mem_cons_self _ _) (Mappers.toInternalAux ms d).1
      simp only [List.mem_singleton] at h3
      rw [h3, this]

/-- Per-entry to-internal of a map field undoes per-entry from-internal
with no error, for an inverse mapper. -/
theorem mapEntriesTo_cancel (m : DataMapper) (hm : m.IsInverse) :
    ∀ entries, mapEntriesTo m (mapEntriesFrom m entries) = (entries, []) := by
  intro entries
  induction entries with
  | nil => rfl
  | cons kv rest ih =>
    obtain ⟨k, v⟩ := kv
    cases v with
    | obj s =>
      rw [show mapEntriesFrom m ((k, Value.obj s) :: rest) =
        (k, Value.obj (m.fromInternal s)) :: mapEntriesFrom m rest from rfl]
      simp [mapEntriesTo, ih, hm.1 s, addError]
    | str s =>
      rw [show mapEntriesFrom m ((k, Value.str s) :: rest) =
        (k, Value.str s) :: mapEntriesFrom m rest from rfl]
      simp [mapEntriesTo, ih, hm.2, addError]
    | arr l =>
      rw [show mapEntriesFrom m ((k, Value.arr l) :: rest) =
        (k, Value.arr l) :: mapEntriesFrom m rest from rfl]
      simp [mapEntriesTo, ih, hm.2, addError]

/-- Per-element to-internal of an array field undoes per-element
from-internal with no error, for an inverse mapper. -/
theorem arrElemsTo_cancel (m : DataMapper) (hm : m.IsInverse) :
    ∀ l, arrElemsTo m (arrElemsFrom m l) = (l, []) := by
  intro l
  induction l with
  | nil => rfl
  | cons v rest ih =>
    cases v with
    | obj s =>
      rw [show arrElemsFrom m (Value.obj s :: rest) =
        Value.obj (m.fromInternal s) :: arrElemsFrom m rest from rfl]
      simp [arrElemsTo, ih, hm.1 s, addError]
    | str s =>
      rw [show arrElemsFrom m (Value.str s :: rest) =
        Value.str s :: arrElemsFrom m rest from rfl]
      simp [arrElemsTo, ih, hm.2, addError]
    | arr a =>
      rw [show arrElemsFrom m (Value.arr a :: rest) =
        Value.arr a :: arrElemsFrom m rest from rfl]
      simp [arrElemsTo, ih, hm.2, addError]

/-- The object-bucket step of to-internal undoes the object-bucket step
of from-internal on the same field, for an inverse mapper. -/
theorem objField_cancel (m : DataMapper) (hm : m.IsInverse) (f : String) (d : Object)
    (errs : List GoError) : objFieldTo m f (objFieldFrom m f d, errs) = (d, errs) := by
  cases hf : mapGet d f with
  | none =>
    rw [show objFieldFrom m f d = d from fieldEditFrom_of_none hf]
    unfold objFieldTo
    rw [fieldEditTo_of_none errs hf]
    simp [hm.2, addError]
  | some v =>
    cases v with
    | obj o =>
      rw [show objFieldFrom m f d = mapSet d f (.obj (m.fromInternal o)) from
        fieldEditFrom_of_some hf rfl]
      unfold objFieldTo
      rw [fieldEditTo_of_some errs (mapGet_mapSet_self d f _)]
      simp [hm.1 o, addError, mapSet_mapSet_same, mapSet_of_get hf]
    | str s =>
      rw [show objFieldFrom m f d = d from fieldEditFrom_of_stuck hf rfl]
      unfold objFieldTo
      rw [fieldEditTo_of_some errs hf]
      simp [hm.2, addError, mapSet_of_get hf]
    | arr l =>
      rw [show objFieldFrom m f d = d from fieldEditFrom_of_stuck hf rfl]
      unfold objFieldTo
      rw [fieldEditTo_of_some errs hf]
      simp [hm.2, addError, mapSet_of_get hf]

/-- The map-bucket step of to-internal undoes the map-bucket step of
from-internal on the same field, for an inverse mapper. -/
theorem mapField_cancel (m : DataMapper) (hm : m.IsInverse) (f : String) (d : Object)
    (errs : List GoError) : mapFieldTo m f (mapFieldFrom m f d, errs) = (d, errs) := by
  cases hf : mapGet d f with
  | none =>
    rw [show mapFieldFrom m f d = d from fieldEditFrom_of_none hf]
    unfold mapFieldTo
    rw [fieldEditTo_of_none errs hf]
    simp
  | some v =>
    cases v with
    | obj o =>
      rw [show mapFieldFrom m f d = mapSet d f (.obj (mapEntriesFrom m o)) from
        fieldEditFrom_of_some hf rfl]
      unfold mapFieldTo
      rw [fieldEditTo_of_some errs (mapGet_mapSet_self d f _)]
      simp [mapEntriesTo_cancel m hm o, mapSet_mapSet_same, mapSet_of_get hf]
    | str s =>
      rw [show mapFieldFrom m f d = d from fieldEditFrom_of_stuck hf rfl]
      unfold mapFieldTo
      rw [fieldEditTo_of_some errs hf]
      simp [mapSet_of_get hf]
    | arr l =>
      rw [show mapFieldFrom m f d = d from fieldEditFrom_of_stuck hf rfl]
      unfold mapFieldTo
      rw [fieldEditTo_of_some errs hf]
      simp [mapSet_of_get hf]

/-- The array-bucket step of to-internal undoes the array-bucket step of
from-internal on the same field, for an inverse mapper. -/
theorem arrField_cancel (m : DataMapper) (hm : m.IsInverse) (f : String) (d : Object)
    (errs : List GoError) : arrFieldTo m f (arrFieldFrom m f d, errs) = (d, errs) := by
  cases hf : mapGet d f with
  | none =>
    rw [show arrFieldFrom m f d = d from fieldEditFrom_of_none hf]
    unfold arrFieldTo
    rw [fieldEditTo_of_none errs hf]
    simp
  | some v =>
    cases v with
    | arr l =>
      rw [show arrFieldFrom m f d = mapSet d f (.arr (arrElemsFrom m l)) from
        fieldEditFrom_of_some hf rfl]
      unfold arrFieldTo
      rw [fieldEditTo_of_some errs (mapGet_mapSet_self d f _)]
      simp [arrElemsTo_cancel m hm l, mapSet_mapSet_same, mapSet_of_get hf]
    | str s =>
      rw [show arrFieldFrom m f d = d from fieldEditFrom_of_stuck hf rfl]
      unfold arrFieldTo
      rw [fieldEditTo_of_some errs hf]
      simp [mapSet_of_get hf]
    | obj o =>
      rw [show arrFieldFrom m f d = d from fieldEditFrom_of_stuck hf rfl]
      unfold arrFieldTo
      rw [fieldEditTo_of_some errs hf]
      simp [mapSet_of_get hf]

theorem objField_comm (m m' : DataMapper) (f g : String) (d : Object) (errs : List GoError)
    (hne : f ≠ g) :
    objFieldTo m f (objFieldFrom m' g d, errs) =
      (objFieldFrom m' g (objFieldTo m f (d, errs)).1, (objFieldTo m f (d, errs)).2) := by
  unfold objFieldTo objFieldFrom
  exact fieldEditTo_fieldEditFrom_comm _ _ _ hne d errs

theorem mapField_comm (m m' : DataMapper) (f g : String) (d : Object) (errs : List GoError)
    (hne : f ≠ g) :
    mapFieldTo m f (mapFieldFrom m' g d, errs) =
      (mapFieldFrom m' g (mapFieldTo m f (d, errs)).1, (mapFieldTo m f (d, errs)).2) := by
  unfold mapFieldTo mapFieldFrom
  exact fieldEditTo_fieldEditFrom_comm _ _ _ hne d errs

theorem arrField_comm (m m' : DataMapper) (f g : String) (d : Object) (errs : List GoError)
    (hne : f ≠ g) :
    arrFieldTo m f (arrFieldFrom m' g d, errs) =
      (arrFieldFrom m' g (arrFieldTo m f (d, errs)).1, (arrFieldTo m f (d, errs)).2) := by
  unfold arrFieldTo arrFieldFrom
  exact fieldEditTo_fieldEditFrom_comm _ _ _ hne d errs

theorem classifyStep_typeName (S : Schemas) (acc : TypeMapper) (nf : String × Field) :
    (classifyStep S acc nf).typeName = acc.typeName := by
  unfold classifyStep
  dsimp only
  split
  · split <;> rfl
  · split
    · split <;> rfl
    · split <;> rfl

/-- One classification step changes only the bucket selected by the
field's type, and the update depends only on the buckets themselves: two
accumulators agreeing on all three buckets still agree after a step. -/
theorem classifyStep_buckets_congr (S : Schemas) (nf : String × Field)
    {acc acc' : TypeMapper}
    (h1 : acc.subSchemas = acc'.subSchemas)
    (h2 : acc.subArraySchemas = acc'.subArraySchemas)
    (h3 : acc.subMapSchemas = acc'.subMapSchemas) :
    (classifyStep S acc nf).subSchemas = (classifyStep S acc' nf).subSchemas ∧
    (classifyStep S acc nf).subArraySchemas = (classifyStep S acc' nf).subArraySchemas ∧
    (classifyStep S acc nf).subMapSchemas = (classifyStep S acc' nf).subMapSchemas := by
  unfold classifyStep
  dsimp only
  split
  · split <;> exact ⟨by simp [h1], by simp [h2], by simp [h3]⟩
  · split
    · split <;> exact ⟨by simp [h1], by simp [h2], by simp [h3]⟩
    · split <;> exact ⟨by simp [h1], by simp [h2], by simp [h3]⟩

theorem classifyFold_typeName (S : Schemas) :
    ∀ (fields : List (String × Field)) (acc : TypeMapper),
      (fields.foldl (classifyStep S) acc).typeName = acc.typeName := by
  intro fields
  induction fields with
  | nil => intro acc; rfl
  | cons nf rest ih =>
    intro acc
    rw [List.foldl_cons, ih, classifyStep_typeName]

theorem classifyFold_congr (S : Schemas) :
    ∀ (fields : List (String × Field)) (acc acc' : TypeMapper),
      acc.subSchemas = acc'.subSchemas →
      acc.subArraySchemas = acc'.subArraySchemas →
      acc.subMapSchemas = acc'.subMapSchemas →
      (fields.foldl (classifyStep S) acc).subSchemas =
          (fields.foldl (classifyStep S) acc').subSchemas ∧
        (fields.foldl (classifyStep S) acc).subArraySchemas =
          (fields.foldl (classifyStep S) acc').subArraySchemas ∧
        (fields.foldl (classifyStep S) acc).subMapSchemas =
          (fields.foldl (classifyStep S) acc').subMapSchemas := by
  intro fields
  induction fields with
  | nil => intro acc acc' h1 h2 h3; exact ⟨h1, h2, h3⟩
  | cons nf rest ih =>
    intro acc acc' h1 h2 h3
    rw [List.foldl_cons, List.foldl_cons]
    obtain ⟨g1, g2, g3⟩ := classifyStep_buckets_congr S nf h1 h2 h3
    exact ih _ _ g1 g2 g3

/-- The chain component of modify-schema is exactly the chain's own
modify-schema run. -/
theorem ModifySchema_chain_component (t : TypeMapper) (schema : Schema) (schemas : Schemas) :
    (t.ModifySchema schema schemas).2 = Mappers.modifySchema t.Mappers schema schemas := rfl

/-- The type name recorded by modify-schema is the schema's identifier. -/
theorem ModifySchema_typeName (t : TypeMapper) (schema : Schema) (schemas : Schemas) :
    (t.ModifySchema schema schemas).1.typeName = schema.ID := by
  unfold TypeMapper.ModifySchema
  dsimp only
  rw [classifyFold_typeName]

/-- The buckets rebuilt by modify-schema do not depend on the previous
mapper state at all: any two type mappers produce identical buckets for
the same schema and registry. -/
theorem ModifySchema_buckets_independent (t t' : TypeMapper) (schema : Schema)
    (schemas : Schemas) :
    (t.ModifySchema schema schemas).1.subSchemas =
        (t'.ModifySchema schema schemas).1.subSchemas ∧
      (t.ModifySchema schema schemas).1.subArraySchemas =
        (t'.ModifySchema schema schemas).1.subArraySchemas ∧
      (t.ModifySchema schema schemas).1.subMapSchemas =
        (t'.ModifySchema schema schemas).1.subMapSchemas := by
  unfold TypeMapper.ModifySchema
  dsimp only
  exact classifyFold_congr _ _ _ _ rfl rfl rfl

/-- When the element mapper fails on every object, the array-bucket
conversion collects exactly one error per element of the sequence. -/
theorem arrElemsTo_fail_length (m : DataMapper) (h : ∀ o, ((m.toInternal o).2).isSome) :
    ∀ l : List Value, (arrElemsTo m l).2.length = l.length := by
  intro l
  induction l with
  | nil => rfl
  | cons v rest ih =>
    have hsome : ∀ o, ∃ e, (m.toInternal o).2 = some e :=
      fun o => Option.isSome_iff_exists.mp (h o)
    cases v with
    | obj s =>
      obtain ⟨e, he⟩ := hsome s
      simp [arrElemsTo, he, addError, ih]
    | str s =>
      obtain ⟨e, he⟩ := hsome []
      simp [arrElemsTo, he, addError, ih]
    | arr a =>
      obtain ⟨e, he⟩ := hsome []
      simp [arrElemsTo, he, addError, ih]

/-- C1: to-internal runs the node's own chain first, then the array,
map and object buckets, collecting every error (chain and recursive)
without short-circuiting into one joined aggregate.  Stated as: (i) the
operation is exactly that composition; (ii) a chain rewrite of the
`items` array is already visible to the array-bucket element conversion,
so the chain runs first; (iii) with an element mapper that always fails,
the aggregate holds exactly one constituent error per element of the
sequence — three elements give three errors. -/
theorem claim_C1 :
    (∀ (t : TypeMapper) (d : Object),
        t.ToInternal d =
          ((bucketPassTo objFieldTo t.subSchemas
              (bucketPassTo mapFieldTo t.subMapSchemas
                (bucketPassTo arrFieldTo t.subArraySchemas
                  ((Mappers.toInternal t.Mappers d).1,
                    addError [] (Mappers.toInternal t.Mappers d).2)))).1,
            joinErrorList
              (bucketPassTo objFieldTo t.subSchemas
                (bucketPassTo mapFieldTo t.subMapSchemas
                  (bucketPassTo arrFieldTo t.subArraySchemas
                    ((Mappers.toInternal t.Mappers d).1,
                      addError [] (Mappers.toInternal t.Mappers d).2)))).2)) ∧
    ((tChainFirst.ToInternal dChainFirst).2 = some (.join [.base "chained"])) ∧
    (∀ (m : DataMapper) (s : Schema) (f : String) (rt : Bool) (tn : String) (l : List Value),
        s.Mapper = some m → (∀ o, ((m.toInternal o).2).isSome) →
        countConstituents
          ((TypeMapper.mk [] rt tn [] [(f, s)] []).ToInternal [(f, .arr l)]).2 = l.length) := by
  refine ⟨fun t d => rfl, rfl, ?_⟩
  intro m s f rt tn l hs hfail
  have hd : mapGet [(f, Value.arr l)] f = some (Value.arr l) := by simp [mapGet]
  unfold TypeMapper.ToInternal
  dsimp only
  rw [show Mappers.toInternal [] [(f, Value.arr l)] = ([(f, Value.arr l)], none) from rfl]
  dsimp only
  rw [show addError [] (none : Option GoError) = [] from rfl]
  rw [bucketPassTo_cons]
  simp only [hs]
  rw [bucketPassTo_nil]
  unfold arrFieldTo
  rw [fieldEditTo_of_some [] hd]
  dsimp only
  rw [bucketPassTo_nil, bucketPassTo_nil]
  dsimp only
  rw [List.nil_append, countConstituents_joinErrorList, arrElemsTo_fail_length m hfail l]

/-- C1 witness: three failing elements yield an aggregate with exactly
three constituent errors. -/
theorem claim_C1_witness :
    ((alwaysFailM.toInternal []).2).isSome = true ∧
    countConstituents
      ((TypeMapper.mk [] false "" [] [("items", failSchemaX)] []).ToInternal
        [("items", .arr [.obj [], .obj [], .obj []])]).2 = 3 := by
  refine ⟨rfl, ?_⟩
  have h := claim_C1.2.2 alwaysFailM failSchemaX "items" false ""
    [.obj [], .obj [], .obj []] rfl (fun o => rfl)
  simpa using h

/-- C2 as stated is false on the code: the classification loop has no
error path at all — a failed registry lookup (here for field `b` of type
`B`) is silently skipped, modify-schema reports no error, and the later
field `c` is still processed into the object bucket. -/
theorem claim_C2_counterexample :
    regXOnly.doSchema "B" false = none ∧
    (emptyTM.ModifySchema schemaABC regXOnly).2.2.2 = none ∧
    (emptyTM.ModifySchema schemaABC regXOnly).1.subSchemas.map Prod.fst = ["a", "c"] :=
  ⟨rfl, rfl, rfl⟩

/-- C2 amended: a registry lookup failure does not abort modify-schema
and produces no error; the failing field is simply recorded in no bucket
while every other field is still processed, and the error result of
modify-schema is exactly the chain's modify-schema result. -/
theorem claim_C2 :
    (∀ (t : TypeMapper) (schema : Schema) (schemas : Schemas),
        (t.ModifySchema schema schemas).2 = Mappers.modifySchema t.Mappers schema schemas) ∧
    (∀ (S : Schemas) (acc : TypeMapper) (nf : String × Field),
        S.doSchema nf.2.fieldType false = none →
        S.doSchema (SubType nf.2.fieldType) false = none →
        classifyStep S acc nf = acc) ∧
    ((emptyTM.ModifySchema schemaABC regXOnly).1.subSchemas.map Prod.fst = ["a", "c"] ∧
      (emptyTM.ModifySchema schemaABC regXOnly).1.subArraySchemas = [] ∧
      (emptyTM.ModifySchema schemaABC regXOnly).1.subMapSchemas = []) := by
  refine ⟨fun t schema schemas => rfl, ?_, rfl, rfl, rfl⟩
  intro S acc nf h1 h2
  unfold classifyStep
  dsimp only
  split
  · simp only [h2]
  · split
    · simp only [h2]
    · simp only [h1]

/-- C2 witness: the classification step for the unresolvable field `b`
leaves the accumulator untouched. -/
theorem claim_C2_witness :
    regXOnly.doSchema "B" false = none ∧
    classifyStep regXOnly emptyTM ("b", Field.mk "B") = emptyTM :=
  ⟨rfl, claim_C2.2.1 regXOnly emptyTM ("b", Field.mk "B") rfl rfl⟩

/-- C3: from-internal recurses into the object, map and array buckets
strictly before running the node's own chain.  Stated as: (i) the
operation is exactly that composition with the chain outermost; (ii) for
a single nested-object field the whole call is the chain applied after
the sub-object conversion; (iii) concretely, a child mapper's mark on
the sub-object at `a` is already visible when the parent chain runs. -/
theorem claim_C3 :
    (∀ (t : TypeMapper) (d : Object),
        t.FromInternal d =
          Mappers.fromInternal t.Mappers
            (bucketPassFrom arrFieldFrom t.subArraySchemas
              (bucketPassFrom mapFieldFrom t.subMapSchemas
                (bucketPassFrom objFieldFrom t.subSchemas d)))) ∧
    (∀ (ms : List Mapper) (m : DataMapper) (s : Schema) (f : String) (rt : Bool)
        (tn : String) (d : Object), s.Mapper = some m →
        (TypeMapper.mk ms rt tn [(f, s)] [] []).FromInternal d =
          Mappers.fromInternal ms (objFieldFrom m f d)) ∧
    (mapGet (tParentChild.FromInternal [("a", Value.obj [])]) "seen" = some (Value.str "1")) := by
  refine ⟨fun t d => rfl, ?_, rfl⟩
  intro ms m s f rt tn d hs
  unfold TypeMapper.FromInternal
  dsimp only
  rw [bucketPassFrom_cons]
  simp only [hs]
  rw [bucketPassFrom_nil, bucketPassFrom_nil, bucketPassFrom_nil]

/-- C3 witness: instantiation of the single-field form at the identity
mapper. -/
theorem claim_C3_witness :
    idSchema.Mapper = some idM ∧
    (TypeMapper.mk [] false "" [("a", idSchema)] [] []).FromInternal [] =
      Mappers.fromInternal [] (objFieldFrom idM "a" []) :=
  ⟨rfl, claim_C3.2.1 [] idM idSchema "a" false "" [] rfl⟩

/-- C4 as stated is false on the code: modify-schema records a field
under a bucket whenever the registry resolves a schema, with no check of
that schema's Mapper — here `a` resolves to a schema with a nil Mapper
and is nevertheless a member of the object bucket. -/
theorem claim_C4_counterexample :
    xSchema.Mapper = none ∧
    (emptyTM.ModifySchema schemaA regXOnly).1.subSchemas = [("a", xSchema)] :=
  ⟨rfl, rfl⟩

/-- C4 amended: a resolved sub-schema is recorded in its bucket
regardless of its Mapper; an entry whose schema has a nil Mapper is
skipped by both from-internal and to-internal, so traversal behaves as
if the field were excluded. -/
theorem claim_C4 :
    ((emptyTM.ModifySchema schemaA regXOnly).1.subSchemas = [("a", xSchema)] ∧
      xSchema.Mapper = none) ∧
    (∀ (t : TypeMapper) (f : String) (s : Schema) (d : Object), s.Mapper = none →
      ({ t with subSchemas := (f, s) :: t.subSchemas } : TypeMapper).FromInternal d =
          t.FromInternal d ∧
        ({ t with subArraySchemas := (f, s) :: t.subArraySchemas } : TypeMapper).FromInternal d =
          t.FromInternal d ∧
        ({ t with subMapSchemas := (f, s) :: t.subMapSchemas } : TypeMapper).FromInternal d =
          t.FromInternal d ∧
        ({ t with subSchemas := (f, s) :: t.subSchemas } : TypeMapper).ToInternal d =
          t.ToInternal d ∧
        ({ t with subArraySchemas := (f, s) :: t.subArraySchemas } : TypeMapper).ToInternal d =
          t.ToInternal d ∧
        ({ t with subMapSchemas := (f, s) :: t.subMapSchemas } : TypeMapper).ToInternal d =
          t.ToInternal d) := by
  refine ⟨⟨rfl, rfl⟩, ?_⟩
  intro t f s d hs
  refine ⟨?_, ?_, ?_, ?_, ?_, ?_⟩ <;>
    simp only [TypeMapper.FromInternal, TypeMapper.ToInternal, bucketPassFrom_cons,
      bucketPassTo_cons, hs]

/-- C4 witness: prepending a nil-mapper entry to the object bucket does
not change from-internal. -/
theorem claim_C4_witness :
    xSchema.Mapper = none ∧
    ({ emptyTM with subSchemas := ("a", xSchema) :: emptyTM.subSchemas } : TypeMapper).FromInternal
        [("a", Value.obj [])] =
      emptyTM.FromInternal [("a", Value.obj [])] :=
  ⟨rfl, (claim_C4.2 emptyTM "a" xSchema [("a", Value.obj [])] rfl).1⟩

/-- C5: the chain's to-internal applies the mappers in reverse declared
order (the declared-last tag `2` lands before the declared-first tag `1`
in the log), invokes every mapper even when all of them fail (one
constituent error per member), and an all-success run — the empty chain
included — yields a nil aggregate. -/
theorem claim_C5 :
    ((Mappers.toInternal [logAppend "1", logAppend "2"] [("log", Value.str "")]).1 =
        [("log", Value.str "21")]) ∧
    (∀ (ms : List Mapper) (d : Object), (∀ m ∈ ms, ∀ o, ((m.toInternal o).2).isSome) →
        countConstituents (Mappers.toInternal ms d).2 = ms.length) ∧
    (∀ (ms : List Mapper) (d : Object), (∀ m ∈ ms, ∀ o, (m.toInternal o).2 = none) →
        (Mappers.toInternal ms d).2 = none) := by
  refine ⟨rfl, ?_, ?_⟩
  · intro ms d h
    unfold Mappers.toInternal
    dsimp only
    rw [countConstituents_joinOptErrors, toInternalAux_fail_count ms h d]
  · intro ms d h
    exact joinOptErrors_all_none (toInternalAux_success ms h d)

/-- C5 witness: two always-failing members give two constituent errors;
a succeeding chain gives a nil aggregate. -/
theorem claim_C5_witness :
    countConstituents (Mappers.toInternal [failChainM, failChainM] []).2 = 2 ∧
    (Mappers.toInternal [okChainM] []).2 = none := by
  constructor
  · have h := claim_C5.2.1 [failChainM, failChainM] []
      (by intro m hm o; simp only [List.mem_cons, List.not_mem_nil, or_false] at hm
          rcases hm with h | h <;> subst h <;> rfl)
    simpa using h
  · exact claim_C5.2.2 [okChainM] []
      (by intro m hm o; simp only [List.mem_cons, List.not_mem_nil, or_false] at hm
          subst hm; rfl)

/-- C6: the chain's modify-schema runs in declared order and
short-circuits: a failing head makes the whole run return that failure
with the tail never consulted (the result is independent of the tail); a
succeeding head hands the mutated schema and registry to the tail; and a
chain of members that always succeed returns nil. -/
theorem claim_C6 :
    (∀ (m : Mapper) (rest : List Mapper) (s : Schema) (r : Schemas) (s' : Schema)
        (r' : Schemas) (e : GoError), m.modifySchema s r = (s', r', some e) →
        Mappers.modifySchema (m :: rest) s r = (s', r', some e)) ∧
    (∀ (m : Mapper) (rest : List Mapper) (s : Schema) (r : Schemas) (s' : Schema)
        (r' : Schemas), m.modifySchema s r = (s', r', none) →
        Mappers.modifySchema (m :: rest) s r = Mappers.modifySchema rest s' r') ∧
    (∀ (ms : List Mapper) (s : Schema) (r : Schemas),
        (∀ m ∈ ms, ∀ s' r', (m.modifySchema s' r').2.2 = none) →
        (Mappers.modifySchema ms s r).2.2 = none) := by
  refine ⟨?_, ?_, ?_⟩
  · intro m rest s r s' r' e h
    simp only [Mappers.modifySchema, h]
  · intro m rest s r s' r' h
    simp only [Mappers.modifySchema, h]
  · intro ms
    induction ms with
    | nil => intro s r _; rfl
    | cons m rest ih =>
      intro s r h
      have hm := h m (List.mem_cons_self _ _) s r
      rcases hmod : m.modifySchema s r with ⟨s', r', e⟩
      rw [hmod] at hm
      dsimp only at hm
      subst hm
      simp only [Mappers.modifySchema, hmod]
      exact ih s' r' (fun m' hm' => h m' (List.mem_cons_of_mem _ hm'))

/-- C6 witness: a failing head short-circuits past a succeeding tail,
and an all-succeeding chain reports nil. -/
theorem claim_C6_witness :
    failModM.modifySchema xSchema regXOnly = (xSchema, regXOnly, some (.base "modify failed")) ∧
    Mappers.modifySchema [failModM, okChainM] xSchema regXOnly =
      (xSchema, regXOnly, some (.base "modify failed")) ∧
    (Mappers.modifySchema [okChainM] xSchema regXOnly).2.2 = none := by
  refine ⟨rfl, ?_, ?_⟩
  · exact claim_C6.1 failModM [okChainM] xSchema regXOnly xSchema regXOnly
      (.base "modify failed") rfl
  · exact claim_C6.2.2 [okChainM] xSchema regXOnly
      (by intro m hm s' r'; simp only [List.mem_cons, List.not_mem_nil, or_false] at hm
          subst hm; rfl)

/-- C7: each modify-schema call fully rebuilds the three buckets from
scratch (the result does not depend on the previous mapper state at
all), records the schema's identifier as type name, and classifies the
fields of the internal schema when one is present — array-of-T to the
array bucket, map-of-T to the map bucket, anything else as a plain
object type — ignoring the external fields. -/
theorem claim_C7 :
    (∀ (t t' : TypeMapper) (schema : Schema) (schemas : Schemas),
        (t.ModifySchema schema schemas).1.subSchemas =
            (t'.ModifySchema schema schemas).1.subSchemas ∧
          (t.ModifySchema schema schemas).1.subArraySchemas =
            (t'.ModifySchema schema schemas).1.subArraySchemas ∧
          (t.ModifySchema schema schemas).1.subMapSchemas =
            (t'.ModifySchema schema schemas).1.subMapSchemas) ∧
    (∀ (t : TypeMapper) (schema : Schema) (schemas : Schemas),
        (t.ModifySchema schema schemas).1.typeName = schema.ID) ∧
    ((emptyTM.ModifySchema schemaWithInternal regXOnly).1.subArraySchemas = [("xs", xSchema)] ∧
      (emptyTM.ModifySchema schemaWithInternal regXOnly).1.subMapSchemas = [("mp", xSchema)] ∧
      (emptyTM.ModifySchema schemaWithInternal regXOnly).1.subSchemas = [("ob", xSchema)]) :=
  ⟨fun t t' schema schemas => ModifySchema_buckets_independent t t' schema schemas,
    fun t schema schemas => ModifySchema_typeName t schema schemas,
    rfl, rfl, rfl⟩

/-- C8: when the chain's two directions are mutual inverses and every
bucket entry's mapper is likewise inverse (and bucket keys are distinct,
as Go map keys are), to-internal applied to the output of from-internal
recovers the original data view with a nil aggregate error. -/
theorem claim_C8 (t : TypeMapper) (d : Object)
    (hchain : ∀ m ∈ t.Mappers, ∀ o, m.toInternal (m.fromInternal o) = (o, none))
    (hobj : ∀ f s m, (f, s) ∈ t.subSchemas → s.Mapper = some m → m.IsInverse)
    (hmap : ∀ f s m, (f, s) ∈ t.subMapSchemas → s.Mapper = some m → m.IsInverse)
    (harr : ∀ f s m, (f, s) ∈ t.subArraySchemas → s.Mapper = some m → m.IsInverse)
    (hnd1 : (t.subSchemas.map Prod.fst).Nodup)
    (hnd2 : (t.subMapSchemas.map Prod.fst).Nodup)
    (hnd3 : (t.subArraySchemas.map Prod.fst).Nodup) :
    t.ToInternal (t.FromInternal d) = (d, none) := by
  unfold TypeMapper.FromInternal TypeMapper.ToInternal
  dsimp only
  rw [chain_roundtrip t.Mappers hchain]
  dsimp only
  rw [show addError [] (none : Option GoError) = [] from rfl]
  rw [bucketPass_cancel arrFieldFrom arrFieldTo DataMapper.IsInverse
    (fun m f d errs hm => arrField_cancel m hm f d errs)
    (fun m m' f g d errs hne => arrField_comm m m' f g d errs hne)
    t.subArraySchemas hnd3 harr _ []]
  rw [bucketPass_cancel mapFieldFrom mapFieldTo DataMapper.IsInverse
    (fun m f d errs hm => mapField_cancel m hm f d errs)
    (fun m m' f g d errs hne => mapField_comm m m' f g d errs hne)
    t.subMapSchemas hnd2 hmap _ []]
  rw [bucketPass_cancel objFieldFrom objFieldTo DataMapper.IsInverse
    (fun m f d errs hm => objField_cancel m hm f d errs)
    (fun m m' f g d errs hne => objField_comm m m' f g d errs hne)
    t.subSchemas hnd1 hobj d []]
  rfl

/-- C8 witness: the round trip at a type mapper with one identity-mapped
field per bucket and an identity chain. -/
theorem claim_C8_witness :
    tRound.ToInternal (tRound.FromInternal dRound) = (dRound, none) := by
  apply claim_C8 tRound dRound
  · intro m hm o
    simp only [tRound, List.mem_cons, List.not_mem_nil, or_false] at hm
    subst hm
    rfl
  · intro f s m hmem hsm
    simp only [tRound, List.mem_cons, List.not_mem_nil, or_false, Prod.mk.injEq] at hmem
    obtain ⟨hf, hs⟩ := hmem
    subst hs
    simp only [idSchema, Schema.Mapper, Option.some.injEq] at hsm
    subst hsm
    exact ⟨fun o => rfl, fun o => rfl⟩
  · intro f s m hmem hsm
    simp only [tRound, List.mem_cons, List.not_mem_nil, or_false, Prod.mk.injEq] at hmem
    obtain ⟨hf, hs⟩ := hmem
    subst hs
    simp only [idSchema, Schema.Mapper, Option.some.injEq] at hsm
    subst hsm
    exact ⟨fun o => rfl, fun o => rfl⟩
  · intro f s m hmem hsm
    simp only [tRound, List.mem_cons, List.not_mem_nil, or_false, Prod.mk.injEq] at hmem
    obtain ⟨hf, hs⟩ := hmem
    subst hs
    simp only [idSchema, Schema.Mapper, Option.some.injEq] at hsm
    subst hsm
    exact ⟨fun o => rfl, fun o => rfl⟩
  · simp [tRound]
  · simp [tRound]
  · simp [tRound]

/-- C9 as stated is false on the code: with empty buckets, to-internal
does not return exactly the chain's result — the chain's aggregate is
wrapped once more by the node-level `errors.Join`, so a failing chain's
error comes back double-wrapped. -/
theorem claim_C9_counterexample :
    (tChainOnly.ToInternal []).2 = some (.join [.join [.base "chain fail"]]) ∧
    (Mappers.toInternal tChainOnly.Mappers []).2 = some (.join [.base "chain fail"]) ∧
    (tChainOnly.ToInternal []).2 ≠ (Mappers.toInternal tChainOnly.Mappers []).2 := by
  refine ⟨rfl, rfl, ?_⟩
  rw [show (tChainOnly.ToInternal []).2 = some (.join [.join [.base "chain fail"]]) from rfl,
    show (Mappers.toInternal tChainOnly.Mappers []).2 = some (.join [.base "chain fail"]) from rfl]
  intro h
  simp at h

/-- C9 amended: with all three buckets empty, from-internal is exactly
the chain's from-internal, and to-internal performs no recursion: its
data result is the chain's, a succeeding chain gives back exactly the
chain's result, and a failing chain's aggregate is returned re-wrapped
as a one-element aggregate. -/
theorem claim_C9 :
    ∀ (ms : List Mapper) (rt : Bool) (tn : String) (d : Object),
      (TypeMapper.mk ms rt tn [] [] []).FromInternal d = Mappers.fromInternal ms d ∧
      ((TypeMapper.mk ms rt tn [] [] []).ToInternal d).1 = (Mappers.toInternal ms d).1 ∧
      ((Mappers.toInternal ms d).2 = none →
        (TypeMapper.mk ms rt tn [] [] []).ToInternal d = Mappers.toInternal ms d) ∧
      (∀ e, (Mappers.toInternal ms d).2 = some e →
        ((TypeMapper.mk ms rt tn [] [] []).ToInternal d).2 = some (.join [e])) := by
  intro ms rt tn d
  refine ⟨rfl, ?_, ?_, ?_⟩
  · unfold TypeMapper.ToInternal
    dsimp only
    rw [bucketPassTo_nil, bucketPassTo_nil, bucketPassTo_nil]
  · intro h
    unfold TypeMapper.ToInternal
    dsimp only
    rw [bucketPassTo_nil, bucketPassTo_nil, bucketPassTo_nil, h]
    dsimp only
    rw [show addError [] (none : Option GoError) = [] from rfl]
    exact (Prod.ext rfl h.symm)
  · intro e he
    unfold TypeMapper.ToInternal
    dsimp only
    rw [bucketPassTo_nil, bucketPassTo_nil, bucketPassTo_nil, he]
    rfl

/-- C9 witness: the amended behaviour at the failing chain — the
node-level result is the chain's aggregate wrapped once. -/
theorem claim_C9_witness :
    (Mappers.toInternal [failChainM] []).2 = some (.join [.base "chain fail"]) ∧
    ((TypeMapper.mk [failChainM] false "" [] [] []).ToInternal []).2 =
      some (.join [.join [.base "chain fail"]]) :=
  ⟨rfl, (claim_C9 [failChainM] false "" []).2.2.2 (.join [.base "chain fail"]) rfl⟩

/-- C10: modify-schema rebuilds the buckets and type name before the
chain runs, so the rebuilt state is independent of the chain, and even
when the chain fails the returned mapper state is the fresh
classification of the current schema, not the previous one. -/
theorem claim_C10 :
    (∀ (t : TypeMapper) (ms' : List Mapper) (schema : Schema) (schemas : Schemas),
        (({ t with Mappers := ms' } : TypeMapper).ModifySchema schema schemas).1.subSchemas =
            (t.ModifySchema schema schemas).1.subSchemas ∧
          (({ t with Mappers := ms' } : TypeMapper).ModifySchema schema
                schemas).1.subArraySchemas =
            (t.ModifySchema schema schemas).1.subArraySchemas ∧
          (({ t with Mappers := ms' } : TypeMapper).ModifySchema schema
                schemas).1.subMapSchemas =
            (t.ModifySchema schema schemas).1.subMapSchemas ∧
          (({ t with Mappers := ms' } : TypeMapper).ModifySchema schema schemas).1.typeName =
            (t.ModifySchema schema schemas).1.typeName) ∧
    ((staleTM.ModifySchema schemaA regXOnly).2.2.2 = some (.base "modify failed") ∧
      (staleTM.ModifySchema schemaA regXOnly).1.subSchemas = [("a", xSchema)] ∧
      (staleTM.ModifySchema schemaA regXOnly).1.typeName = "P") := by
  refine ⟨?_, rfl, rfl, rfl⟩
  intro t ms' schema schemas
  obtain ⟨g1, g2, g3⟩ :=
    ModifySchema_buckets_independent ({ t with Mappers := ms' } : TypeMapper) t schema schemas
  refine ⟨g1, g2, g3, ?_⟩
  rw [ModifySchema_typeName, ModifySchema_typeName]

end Schemer
